import Mathlib

/- Shallow embedding of the DTMF analysis core of the bowie-phone repository
(src/logs/analyze_audio.py and src/tools/analyze_audio/analyze_audio.py).

Numeric idealization: Python floats are modelled as exact rationals in the
decision/bookkeeping code, and as real numbers in the Goertzel filter, whose
definition involves cos, sin and sqrt.  Float literals of the source (0.1,
0.5, 1e-10, -20.0, 4.0) are modelled by the exact rationals they denote.
The detection-logic portion of detect_dtmf_digit (src/logs/analyze_audio.py
lines 137-154) is factored out as a function of the eight Goertzel magnitudes
and of np.max(samples): those are its only numeric inputs. -/

namespace BowiePhone

/- ===== DTMF constants (src/tools/analyze_audio/analyze_audio.py lines 57-64,
   identical literals at src/logs/analyze_audio.py lines 121-130) ===== -/

/-- Low (row) DTMF frequencies, DTMF_LOW = [697, 770, 852, 941]. -/
def DTMF_LOW : Fin 4 → ℕ := ![697, 770, 852, 941]

/-- High (column) DTMF frequencies, DTMF_HIGH = [1209, 1336, 1477, 1633]. -/
def DTMF_HIGH : Fin 4 → ℕ := ![1209, 1336, 1477, 1633]

/-- The 16-entry DTMF keypad dictionary, in source order. -/
def DTMF_MAP : List ((ℕ × ℕ) × Char) :=
  [((697, 1209), '1'), ((697, 1336), '2'), ((697, 1477), '3'), ((697, 1633), 'A'),
   ((770, 1209), '4'), ((770, 1336), '5'), ((770, 1477), '6'), ((770, 1633), 'B'),
   ((852, 1209), '7'), ((852, 1336), '8'), ((852, 1477), '9'), ((852, 1633), 'C'),
   ((941, 1209), '*'), ((941, 1336), '0'), ((941, 1477), '#'), ((941, 1633), 'D')]

/-- Association-list lookup, modelling Python dict.get (keys are unique). -/
def lookupPair : List ((ℕ × ℕ) × Char) → (ℕ × ℕ) → Option Char
  | [], _ => none
  | (q, c) :: rest, p => if p = q then some c else lookupPair rest p

/-- Model of dtmf_map.get(pair): none when the pair is not a key. -/
def dtmfGet (p : ℕ × ℕ) : Option Char := lookupPair DTMF_MAP p

/-- Model of DTMF_MAP.get(pair, default), e.g. the '?' fallback. -/
def dtmfGetD (p : ℕ × ℕ) (d : Char) : Char := (dtmfGet p).getD d

/- ===== Small numeric helpers mirroring numpy/python primitives ===== -/

/-- Model of np.argmax over a 4-element list: index of the first maximal
element (numpy returns the first occurrence of the maximum). -/
def argmax4 (f : Fin 4 → ℚ) : Fin 4 :=
  let pick : Fin 4 → Fin 4 → Fin 4 := fun best i => if f best < f i then i else best
  pick (pick (pick 0 1) 2) 3

/-- Model of Python max over a 4-element list of magnitudes. -/
def max4 (f : Fin 4 → ℚ) : ℚ := max (max (max (f 0) (f 1)) (f 2)) (f 3)

/-- Model of Python max(iterable, key=k): the first element with maximal key.
Returns none on an empty list (where Python would raise). -/
def pyMaxBy {β γ : Type} [LinearOrder γ] (key : β → γ) : List β → Option β
  | [] => none
  | b :: bs => some (bs.foldl (fun best x => if key best < key x then x else best) b)

/-- Deduplication keeping the first occurrence of each element, in order:
the key order of a Python collections.Counter built from the list. -/
def dedupFirst {β : Type} [DecidableEq β] : List β → List β → List β
  | _, [] => []
  | seen, a :: l =>
    if a ∈ seen then dedupFirst seen l
    else a :: dedupFirst (a :: seen) l

/-- Model of Counter(l).most_common(1)[0]: the element of l with the largest
multiplicity together with its count; ties are broken by the earliest first
occurrence in l (Counter preserves insertion order and most_common's sort is
stable).  Returns none for an empty list (where Python would raise). -/
def mostCommon {β : Type} [DecidableEq β] (l : List β) : Option (β × ℕ) :=
  (pyMaxBy (fun x => l.count x) (dedupFirst [] l)).map (fun x => (x, l.count x))

/-- Model of Python range(start, stop, step) for step ≥ 1, via its documented
semantics: the arithmetic progression of length ceil((stop-start)/step). -/
def pyRange (start stop step : ℕ) : List ℕ :=
  (List.range ((stop - start + step - 1) / step)).map (fun i => start + i * step)

/- ===== Windower (src/tools/analyze_audio/analyze_audio.py lines 183-188;
   the same loop header at src/logs/analyze_audio.py line 189) ===== -/

/-- Window start offsets produced by `for i in range(0, len(data) - window_n, hop_n)`. -/
def windowOffsets (dataLen windowN hopN : ℕ) : List ℕ :=
  pyRange 0 (dataLen - windowN) hopN

/-- Center timestamp of the window at offset i:
t_center = (i + window_n // 2) / rate (line 185; integer floor division). -/
def tCenter (i windowN : ℕ) (rate : ℚ) : ℚ := ((i + windowN / 2 : ℕ) : ℚ) / rate

/- ===== Per-window decode logic of detect_dtmf_digit
   (src/logs/analyze_audio.py lines 118-154) ===== -/

/-- Twist ratio as computed, unguarded, at src/logs/analyze_audio.py lines
149 and 217: max(low_mag, high_mag) / min(low_mag, high_mag). -/
def logsTwistOf (lm hm : ℚ) : ℚ := max lm hm / min lm hm

/-- Epsilon guard constant 1e-10 of the tools analyzer, idealized exactly. -/
def epsTen : ℚ := 1 / 10 ^ 10

/-- Twist ratio as computed in the tools analyzer (lines 602-603 and 656):
max(a, b) / max(min(a, b), 1e-10). -/
def toolsTwistOf (lm hm : ℚ) : ℚ := max lm hm / max (min lm hm) epsTen

/-- Decision logic of detect_dtmf_digit (src/logs/analyze_audio.py lines
137-154) as a function of the four low magnitudes, four high magnitudes and
np.max(samples).  threshold = np.max(samples) * 0.1; twist limit 4.0; return
value is the 5-tuple (digit, low_freq, high_freq, low_mag, high_mag). -/
def detectDtmfLogic (lowMags highMags : Fin 4 → ℚ) (sampleMax : ℚ) :
    Option Char × Option ℕ × Option ℕ × ℚ × ℚ :=
  let li := argmax4 lowMags
  let hi := argmax4 highMags
  let lowMag := lowMags li
  let highMag := highMags hi
  let threshold := sampleMax * (1 / 10)
  if threshold < lowMag ∧ threshold < highMag then
    if logsTwistOf lowMag highMag < 4 then
      (dtmfGet (DTMF_LOW li, DTMF_HIGH hi), some (DTMF_LOW li), some (DTMF_HIGH hi),
        lowMag, highMag)
    else (none, none, none, lowMag, highMag)
  else (none, none, none, lowMag, highMag)

/- ===== Per-window records and the energy gate
   (src/tools/analyze_audio/analyze_audio.py lines 181-232) ===== -/

/-- Per-window analysis record: the fields of the dict built at lines 210-220
that the segmentation/consensus claims depend on (time = t_center, rms,
rms_db, and the four low / four high Goertzel magnitudes).  The FFT-band
diagnostic fields (low_peak_hz etc.) are not referenced by the claims and
are omitted. -/
structure AWindow where
  time : ℚ
  rms : ℚ
  rmsDb : ℚ
  gLow : Fin 4 → ℚ
  gHigh : Fin 4 → ℚ
deriving DecidableEq

/-- Windows classified as noise by the energy gate (line 227):
rms_db < energy_threshold_db. -/
def noiseWindows (thr : ℚ) (ws : List AWindow) : List AWindow :=
  ws.filter (fun w => decide (w.rmsDb < thr))

/-- Per-noise-window statistic max(max(goertzel_low), max(goertzel_high))
(line 779). -/
def noiseGoertzelMag (w : AWindow) : ℚ := max (max4 w.gLow) (max4 w.gHigh)

/-- Insertion into a sorted list, for the percentile's sort. -/
def insertSorted (x : ℚ) : List ℚ → List ℚ
  | [] => [x]
  | y :: ys => if x ≤ y then x :: y :: ys else y :: insertSorted x ys

/-- Insertion sort (ascending). -/
def sortQ (l : List ℚ) : List ℚ := l.foldr insertSorted []

/-- Model of np.percentile(l, q) with the default linear interpolation:
virtual index h = (n-1)·q/100 into the sorted data, result
s[⌊h⌋] + (h - ⌊h⌋)·(s[⌊h⌋+1] - s[⌊h⌋]). -/
def npPercentile (l : List ℚ) (q : ℚ) : ℚ :=
  let s := sortQ l
  match s with
  | [] => 0
  | _ :: _ =>
    let h : ℚ := ((s.length : ℚ) - 1) * q / 100
    let lo : ℕ := ⌊h⌋₊
    let frac : ℚ := h - (lo : ℚ)
    let a := s.getD lo 0
    let b := s.getD (lo + 1) a
    a + frac * (b - a)

/-- Noise-floor filter magnitude (lines 778-782): the 95th percentile of the
per-noise-window max Goertzel magnitude, or the fixed fallback 1000.0 when
there are no noise windows. -/
def noiseFloorG (nws : List AWindow) : ℚ :=
  if nws.isEmpty then 1000 else npPercentile (nws.map noiseGoertzelMag) 95

/-- Absolute Goertzel detection threshold (line 784):
abs_goertzel_threshold = noise_floor_g * 10. -/
def absGoertzelThreshold (nws : List AWindow) : ℚ := noiseFloorG nws * 10

/- ===== Tone-region segmentation
   (src/tools/analyze_audio/analyze_audio.py lines 237-250) ===== -/

/-- Transcription of the tone_regions loop.  State: in_region flag, the
recorded region_start (a dummy 0 until the first open; Python holds None
there, and the value is only read after an open has set it), and the time of
the last window seen so far (Python reads windows[-1] after the loop).  On a
noise window while in a region, (region_start, w.time) is emitted; at the end
of the stream an open region is closed at the last window's time. -/
def toneRegionsGo (thr : ℚ) : List AWindow → Bool → ℚ → ℚ → List (ℚ × ℚ)
  | [], inR, rs, lastT => if inR then [(rs, lastT)] else []
  | w :: ws, inR, rs, lastT =>
    if thr ≤ w.rmsDb then
      if inR then toneRegionsGo thr ws true rs w.time
      else toneRegionsGo thr ws true w.time w.time
    else
      if inR then (rs, w.time) :: toneRegionsGo thr ws false rs w.time
      else toneRegionsGo thr ws false rs w.time

/-- tone_regions: the list of (start, end) pairs found by the scan. -/
def toneRegionsCode (thr : ℚ) (ws : List AWindow) : List (ℚ × ℚ) :=
  toneRegionsGo thr ws false 0 0

/-- Region segmenter state as described by the specification: OUTSIDE, or
INSIDE_REGION carrying the recorded region start. -/
inductive SegState where
  | outside : SegState
  | inside : ℚ → SegState

/-- One transition of the specification's state machine (section 4.6):
OUTSIDE --active--> INSIDE (record start = window time); INSIDE --active-->
INSIDE; INSIDE --inactive--> OUTSIDE, closing the region at the current
window's time; OUTSIDE --inactive--> OUTSIDE. -/
def segStep (thr : ℚ) (s : SegState) (w : AWindow) : SegState × List (ℚ × ℚ) :=
  match s with
  | .outside => if thr ≤ w.rmsDb then (.inside w.time, []) else (.outside, [])
  | .inside st => if thr ≤ w.rmsDb then (.inside st, []) else (.outside, [(st, w.time)])

/-- Run of the specification's state machine; if the stream ends while
INSIDE_REGION, the region closes at the last window's time (lastT tracks it). -/
def segRun (thr : ℚ) : List AWindow → SegState → ℚ → List (ℚ × ℚ)
  | [], s, lastT =>
    (match s with
     | .inside st => [(st, lastT)]
     | .outside => [])
  | w :: ws, s, lastT =>
    (segStep thr s w).2 ++ segRun thr ws (segStep thr s w).1 w.time

/-- Specification-side segmenter, started OUTSIDE. -/
def toneRegionsSpec (thr : ℚ) (ws : List AWindow) : List (ℚ × ℚ) :=
  segRun thr ws .outside 0

/- ===== Representative windows and region consensus
   (src/tools/analyze_audio/analyze_audio.py lines 255-260 and 630-680) ===== -/

/-- Member windows of a region for representative selection (line 258):
all windows with r_start <= time <= r_end. -/
def regionMembers (ws : List AWindow) (se : ℚ × ℚ) : List AWindow :=
  ws.filter (fun w => decide (se.1 ≤ w.time ∧ w.time ≤ se.2))

/-- representative_windows (lines 255-260): for each region, the member
window of maximum RMS energy (skipping regions with no members). -/
def representativeWindows (thr : ℚ) (ws : List AWindow) : List AWindow :=
  (toneRegionsCode thr ws).filterMap (fun se => pyMaxBy AWindow.rms (regionMembers ws se))

/-- Active member windows of a region for consensus (lines 634-635):
r_start <= time <= r_end and rms_db >= energy threshold. -/
def activeMembers (thr : ℚ) (ws : List AWindow) (se : ℚ × ℚ) : List AWindow :=
  ws.filter (fun w => decide (se.1 ≤ w.time ∧ w.time ≤ se.2 ∧ thr ≤ w.rmsDb))

/-- Per-window best low frequency DTMF_LOW[np.argmax(goertzel_low)] (line 644). -/
def bestLowFreq (w : AWindow) : ℕ := DTMF_LOW (argmax4 w.gLow)

/-- Per-window best high frequency DTMF_HIGH[np.argmax(goertzel_high)] (line 645). -/
def bestHighFreq (w : AWindow) : ℕ := DTMF_HIGH (argmax4 w.gHigh)

/-- Goertzel-side fields of one tone_region_analysis entry (lines 658-678):
region bounds, the per-band consensus frequencies, the consensus digit and
the member count.  The FFT-side diagnostic fields are omitted. -/
structure RegionInfo where
  rstart : ℚ
  rend : ℚ
  gLowFreq : ℕ
  gHighFreq : ℕ
  gDigit : Char
  numWindows : ℕ
deriving DecidableEq

/-- tone_region_analysis (lines 632-678), Goertzel-consensus fields: for each
region with at least one active member window, the most common per-window
best low and best high frequencies are voted separately and the pair is
looked up in DTMF_MAP with fallback '?'. -/
def regionAnalysis (thr : ℚ) (ws : List AWindow) : List RegionInfo :=
  (toneRegionsCode thr ws).filterMap (fun se =>
    match mostCommon ((activeMembers thr ws se).map bestLowFreq),
        mostCommon ((activeMembers thr ws se).map bestHighFreq) with
    | some lc, some hc =>
      some ⟨se.1, se.2, lc.1, hc.1, dtmfGetD (lc.1, hc.1) '?',
        (activeMembers thr ws se).length⟩
    | _, _ => none)

/-- Consensus digit computed per the specification's words (section 4.6 /
claim C3): majority vote of the per-window decoded digit over the active
member windows, with ties broken by the earliest-occurring value. -/
def consensusDigitByVote (rws : List AWindow) : Option Char :=
  (mostCommon (rws.map (fun w => dtmfGetD (bestLowFreq w, bestHighFreq w) '?'))).map
    Prod.fst

/-- Consensus digit computed per the amended description of claim C3: the
best low frequency and the best high frequency are voted separately over the
active member windows (ties by earliest occurrence) and the winning pair is
looked up in the 16-entry map. -/
def consensusByBandVote (rws : List AWindow) : Option Char :=
  match mostCommon (rws.map bestLowFreq), mostCommon (rws.map bestHighFreq) with
  | some lc, some hc => some (dtmfGetD (lc.1, hc.1) '?')
  | _, _ => none

/-- One entry of gated_detections (lines 789-795). -/
structure GatedDetection where
  digit : Char
  startT : ℚ
  endT : ℚ
  dur : ℚ
deriving DecidableEq

/-- gated_detections (lines 788-795): one detection per tone_region_analysis
entry, unconditionally carrying its consensus digit and bounds.  No magnitude
threshold or twist check is applied on this path. -/
def gatedDetections (ras : List RegionInfo) : List GatedDetection :=
  ras.map (fun tr => ⟨tr.gDigit, tr.rstart, tr.rend, tr.rend - tr.rstart⟩)

/- ===== Sequence assembler / digit-event debounce
   (src/logs/analyze_audio.py lines 184-246) ===== -/

/-- Transcription of the digit-event debounce loop over the stream of
(window offset, decoded digit) pairs, tracking last_digit and digit_start.
Events are (digit, start_time = digit_start/rate, duration_ms =
(now - digit_start)/rate * 1000).  At the end of the stream an open event is
closed using dataLen (lines 244-246). -/
def debounceGo (rate : ℚ) (dataLen : ℤ) :
    List (ℤ × Option Char) → Option Char → ℤ → List (Char × ℚ × ℚ)
  | [], last, ds =>
    (match last with
     | some ld => [(ld, (ds : ℚ) / rate, ((dataLen - ds : ℤ) : ℚ) / rate * 1000)]
     | none => [])
  | (i, d) :: rest, last, ds =>
    match d, last with
    | some dg, some ld =>
      if dg = ld then debounceGo rate dataLen rest (some ld) ds
      else (ld, (ds : ℚ) / rate, ((i - ds : ℤ) : ℚ) / rate * 1000) ::
        debounceGo rate dataLen rest (some dg) i
    | some dg, none => debounceGo rate dataLen rest (some dg) i
    | none, some ld =>
      (ld, (ds : ℚ) / rate, ((i - ds : ℤ) : ℚ) / rate * 1000) ::
        debounceGo rate dataLen rest none ds
    | none, none => debounceGo rate dataLen rest none ds

/-- detected_digits as assembled by the loop: last_digit starts as None. -/
def digitEvents (rate : ℚ) (dataLen : ℤ) (stream : List (ℤ × Option Char)) :
    List (Char × ℚ × ℚ) :=
  debounceGo rate dataLen stream none 0

/-- Sequence assembler as described by the specification (section 4.7 / claim
C8): on each window, if the newly decoded digit differs from last_digit,
close any open digit event, and if the new digit is non-none open a new one;
at stream end close any still-open event using the buffer's end. -/
def specDebounceGo (rate : ℚ) (dataLen : ℤ) :
    List (ℤ × Option Char) → Option Char → ℤ → List (Char × ℚ × ℚ)
  | [], last, ds =>
    (match last with
     | some ld => [(ld, (ds : ℚ) / rate, ((dataLen - ds : ℤ) : ℚ) / rate * 1000)]
     | none => [])
  | (i, d) :: rest, last, ds =>
    if d = last then specDebounceGo rate dataLen rest last ds
    else
      (match last with
       | some ld => [(ld, (ds : ℚ) / rate, ((i - ds : ℤ) : ℚ) / rate * 1000)]
       | none => []) ++
      (match d with
       | some dg => specDebounceGo rate dataLen rest (some dg) i
       | none => specDebounceGo rate dataLen rest none ds)

/- ===== Goertzel filter (src/tools/analyze_audio/analyze_audio.py lines
   36-51; textually identical at src/logs/analyze_audio.py lines 97-116) ===== -/

/-- One step of the Goertzel recursion on the state (q1, q2):
q0 = coeff*q1 - q2 + sample; q2 = q1; q1 = q0. -/
def gStep (coeff : ℝ) (q : ℝ × ℝ) (s : ℝ) : ℝ × ℝ := (coeff * q.1 - q.2 + s, q.1)

/-- Bin index as computed by the source: k = int(0.5 + (n * f) / Fs)
(truncation of a non-negative value, i.e. floor). -/
def kCode (n f fs : ℕ) : ℕ := ⌊(1 / 2 : ℚ) + (n * f : ℚ) / fs⌋₊

/-- Bin index as described by the specification: k = round(N·f / Fs). -/
def kRound (n f fs : ℕ) : ℕ := (round ((n * f : ℚ) / fs)).toNat

/-- Tail of the Goertzel computation shared by code and spec: given the bin
index k and length n, run the zero-initialized recursion over the samples and
return sqrt(real*real + imag*imag) with omega = 2*pi*k/n,
real = q1 - q2*cos(omega), imag = q2*sin(omega). -/
noncomputable def goertzelCore (k n : ℕ) (samples : List ℝ) : ℝ :=
  let ω : ℝ := 2 * Real.pi * (k : ℝ) / (n : ℝ)
  let coeff : ℝ := 2 * Real.cos ω
  let qs := samples.foldl (gStep coeff) (0, 0)
  let re := qs.1 - qs.2 * Real.cos ω
  let im := qs.2 * Real.sin ω
  Real.sqrt (re * re + im * im)

/-- goertzel(samples, target_freq, sample_rate) as implemented: a pure,
deterministic function of its inputs. -/
noncomputable def goertzel (samples : List ℝ) (f fs : ℕ) : ℝ :=
  goertzelCore (kCode samples.length f fs) samples.length samples

/-- Goertzel magnitude as described by the specification (section 4.1):
identical recursion and magnitude formula, with k = round(N·f/Fs). -/
noncomputable def goertzelSpecAlg (samples : List ℝ) (f fs : ℕ) : ℝ :=
  goertzelCore (kRound samples.length f fs) samples.length samples

/- ===== Concrete example windows used by witnesses/counterexamples ===== -/

/-- Active window at t=1 whose best pair is (697, 1209), digit '1'. -/
def w1c : AWindow := ⟨1, 1, 0, ![5, 0, 0, 0], ![5, 0, 0, 0]⟩

/-- Active window at t=2 whose best pair is (770, 1336), digit '5'. -/
def w2c : AWindow := ⟨2, 2, 0, ![0, 5, 0, 0], ![0, 5, 0, 0]⟩

/-- Active window at t=3 whose best pair is (697, 1336), digit '2'. -/
def w3c : AWindow := ⟨3, 3, 0, ![5, 0, 0, 0], ![0, 5, 0, 0]⟩

/-- A three-window stream forming a single tone region. -/
def ws3 : List AWindow := [w1c, w2c, w3c]

/-- The single tone_region_analysis entry of ws3 at threshold -20. -/
def r3 : RegionInfo := ⟨1, 3, 697, 1336, '2', 3⟩

/-- A noise window (rms_db = -40) with max Goertzel magnitude 7. -/
def wNoise : AWindow := ⟨0, 0, -40, ![3, 0, 0, 0], ![0, 7, 0, 0]⟩

/- ======================= Theorems ======================= -/

/-- Every (low, high) pair formed from the two frequency tables is a key of
the 16-entry map. -/
theorem dtmf_pair_isSome : ∀ i j : Fin 4, (dtmfGet (DTMF_LOW i, DTMF_HIGH j)).isSome = true := by
  decide

/-- Looking such a pair up with the '?' fallback never yields '?'. -/
theorem dtmf_pair_ne_undetected : ∀ i j : Fin 4, dtmfGetD (DTMF_LOW i, DTMF_HIGH j) '?' ≠ '?' := by
  decide

/-- C1 (code_bug): the tools analyzer's absolute threshold is 10 times the
95th-percentile noise-floor magnitude (here 7 gives 70), as the claim states;
but the decode path of src/logs detect_dtmf_digit computes its threshold as
np.max(samples) * 0.1 — a peak-sample-amplitude fraction — so identical
filter magnitudes (best low = best high = 2, twist 1) decode as '1' when the
window's peak sample is 10 yet as none when it is 30, contradicting the
claim that no detection threshold in the decode path is peak × fraction. -/
theorem detect_threshold_peak_fraction_bug :
    absGoertzelThreshold (noiseWindows (-20) [wNoise]) = 70 ∧
    noiseFloorG (noiseWindows (-20) [wNoise]) = 7 ∧
    (detectDtmfLogic ![2, 0, 0, 0] ![2, 0, 0, 0] 10).1 = some '1' ∧
    (detectDtmfLogic ![2, 0, 0, 0] ![2, 0, 0, 0] 30).1 = none := by
  have hfilter : noiseWindows (-20) [wNoise] = [wNoise] := by decide
  have hfloor : noiseFloorG (noiseWindows (-20) [wNoise]) = 7 := by
    rw [hfilter]
    norm_num [noiseFloorG, npPercentile, sortQ, insertSorted, noiseGoertzelMag,
      max4, wNoise, List.getD]
  have ha : argmax4 (![(2 : ℚ), 0, 0, 0]) = 0 := by decide
  refine ⟨?_, hfloor, ?_, ?_⟩
  · rw [absGoertzelThreshold, hfloor]; norm_num
  · simp only [detectDtmfLogic, ha]
    rw [if_pos (by norm_num), if_pos (by norm_num [logsTwistOf])]
    decide
  · simp only [detectDtmfLogic, ha]
    rw [if_neg (by norm_num)]

/-- C2 (counterexample): with best low and best high magnitudes exactly equal
to the threshold (magnitudes 1, peak sample 10, threshold 1), the claim's
conditions hold with non-strict comparisons — both magnitudes ≥ threshold,
twist 1 < 4, and the frequency pair is a key of the map — yet the decoder
returns none, because the source compares with strict greater-than. -/
theorem detect_boundary_counterexample :
    (detectDtmfLogic ![1, 0, 0, 0] ![1, 0, 0, 0] 10).1 = none ∧
    (10 : ℚ) * (1 / 10) ≤ (![1, 0, 0, 0] : Fin 4 → ℚ) (argmax4 ![1, 0, 0, 0]) ∧
    logsTwistOf 1 1 < 4 ∧
    (dtmfGet (DTMF_LOW (argmax4 (![1, 0, 0, 0] : Fin 4 → ℚ)),
      DTMF_HIGH (argmax4 (![1, 0, 0, 0] : Fin 4 → ℚ)))).isSome = true := by
  have ha : argmax4 (![(1 : ℚ), 0, 0, 0]) = 0 := by decide
  refine ⟨?_, ?_, ?_, ?_⟩
  · simp only [detectDtmfLogic, ha]
    rw [if_neg (by norm_num)]
  · rw [ha]; norm_num
  · norm_num [logsTwistOf]
  · rw [ha]; decide

/-- C2 (amended): for every window, the logs decoder returns a digit exactly
when best_low_magnitude and best_high_magnitude are strictly greater than the
threshold np.max(samples) * 0.1 and the twist ratio is strictly less than
4.0; the (best_low_frequency, best_high_frequency) pair is always a key of
the 16-entry mapping, in every other case the result is none, and the
function is total. -/
theorem detect_digit_iff (l h : Fin 4 → ℚ) (m : ℚ) :
    (detectDtmfLogic l h m).1.isSome = true ↔
      (m * (1 / 10) < l (argmax4 l) ∧ m * (1 / 10) < h (argmax4 h) ∧
        logsTwistOf (l (argmax4 l)) (h (argmax4 h)) < 4) := by
  have hmap := dtmf_pair_isSome (argmax4 l) (argmax4 h)
  simp only [detectDtmfLogic]
  split_ifs with h1 h2
  · exact iff_of_true hmap ⟨h1.1, h1.2, h2⟩
  · exact iff_of_false (by simp) (fun hc => h2 hc.2.2)
  · exact iff_of_false (by simp) (fun hc => h1 ⟨hc.1, hc.2.1⟩)

/-- C9 (counterexample): the twist-ratio computation of the logs script
divides by min(low_mag, high_mag) with no epsilon guard — at magnitudes
(0, 5) its divisor is exactly 0, and its value differs from the
epsilon-guarded computation used by the tools analyzer. -/
theorem twist_guard_counterexample :
    min (0 : ℚ) 5 = 0 ∧ logsTwistOf 0 5 ≠ toolsTwistOf 0 5 := by
  constructor
  · norm_num
  · norm_num [logsTwistOf, toolsTwistOf, epsTen]

/-- C9 (amended): the tools analyzer's twist computations divide by
max(min(low, high), 1e-10), which is always strictly positive, so they never
divide by zero; and whenever min(low, high) is at least the epsilon the
guarded and unguarded ratios agree.  The logs script's two ratio computations
are the unguarded form. -/
theorem twist_guard_amended :
    (∀ lm hm : ℚ, 0 < max (min lm hm) epsTen) ∧
    (∀ lm hm : ℚ, epsTen ≤ min lm hm → toolsTwistOf lm hm = logsTwistOf lm hm) := by
  constructor
  · intro lm hm
    have h0 : (0 : ℚ) < epsTen := by norm_num [epsTen]
    exact lt_of_lt_of_le h0 (le_max_right _ _)
  · intro lm hm h
    unfold toolsTwistOf logsTwistOf
    rw [max_eq_left h]

/-- Witness for C9's amended theorem at magnitudes (1, 2). -/
theorem twist_guard_amended_witness :
    epsTen ≤ min (1 : ℚ) 2 ∧ toolsTwistOf 1 2 = logsTwistOf 1 2 :=
  ⟨by norm_num [epsTen], twist_guard_amended.2 1 2 (by norm_num [epsTen])⟩

/-- Index bound for the arithmetic progression underlying Python range. -/
theorem lt_ceilDiv_iff {i L s : ℕ} (hs : 1 ≤ s) : i < (L + s - 1) / s ↔ i * s < L := by
  rw [Nat.lt_iff_add_one_le, Nat.le_div_iff_mul_le (by omega : 0 < s)]
  have h : (i + 1) * s = i * s + s := by ring
  rw [h]
  omega

/-- Membership in the model of range(start, stop, step) for step ≥ 1. -/
theorem mem_pyRange {o start stop step : ℕ} (hs : 1 ≤ step) :
    o ∈ pyRange start stop step ↔ ∃ i, o = start + i * step ∧ o < stop := by
  unfold pyRange
  simp only [List.mem_map, List.mem_range]
  constructor
  · rintro ⟨i, hi, rfl⟩
    have h2 := (lt_ceilDiv_iff hs).1 hi
    exact ⟨i, rfl, by omega⟩
  · rintro ⟨i, rfl, hlt⟩
    exact ⟨i, (lt_ceilDiv_iff hs).2 (by omega), rfl⟩

/-- C5 (counterexample): with a buffer of exactly one window length
(len 4, window 4, hop 2) the loop produces no window at all, although
offset 0 satisfies the claim's bound 0 + window_length ≤ len; and for an odd
window length (5, rate 1, offset 0) the produced center timestamp is
(0 + 5 // 2) / 1 = 2, not the claim's (0 + 5/2) / 1 = 5/2. -/
theorem windower_counterexample :
    windowOffsets 4 4 2 = [] ∧ 0 + 4 ≤ 4 ∧
    tCenter 0 5 1 = 2 ∧ (2 : ℚ) ≠ (0 + 5 / 2 : ℚ) := by
  refine ⟨by decide, by decide, by norm_num [tCenter], by norm_num⟩

/-- C5 (amended): for hop ≥ 1 and window_length ≥ 2, the windower produces
exactly the offsets 0, hop, 2·hop, ... whose window fits strictly inside the
buffer (offset + window_length < len, so the window flush with the end of the
buffer is also dropped, and the partial tail is dropped, never padded); the
center timestamp of the window at offset i is (i + window_length // 2) / rate
with integer floor division, which is tCenter by definition. -/
theorem window_offsets_amended (dataLen windowN hopN : ℕ) (hhop : 1 ≤ hopN)
    (_hwin : 2 ≤ windowN) (o : ℕ) :
    o ∈ windowOffsets dataLen windowN hopN ↔
      (∃ k, o = k * hopN) ∧ o + windowN < dataLen := by
  unfold windowOffsets
  rw [mem_pyRange hhop]
  constructor
  · rintro ⟨i, rfl, hlt⟩
    exact ⟨⟨i, by omega⟩, by omega⟩
  · rintro ⟨⟨k, rfl⟩, hlt⟩
    exact ⟨k, by omega, by omega⟩

/-- Witness for C5's amended theorem: buffer 10, window 4, hop 2, offset 2. -/
theorem window_offsets_amended_witness :
    (1 ≤ 2 ∧ 2 ≤ 4) ∧
      ((2 ∈ windowOffsets 10 4 2) ↔ (∃ k, 2 = k * 2) ∧ 2 + 4 < 10) :=
  ⟨⟨by decide, by decide⟩, window_offsets_amended 10 4 2 (by decide) (by decide) 2⟩

/-- The code's region scan agrees with the specification's state machine from
any pair of corresponding states (in_region = false maps to OUTSIDE, and
in_region = true with recorded start rs maps to INSIDE_REGION rs). -/
theorem toneRegionsGo_eq_segRun (thr : ℚ) :
    ∀ (ws : List AWindow) (inR : Bool) (rs lastT : ℚ),
      toneRegionsGo thr ws inR rs lastT =
        segRun thr ws (if inR then SegState.inside rs else SegState.outside) lastT := by
  intro ws
  induction ws with
  | nil =>
    intro inR rs lastT
    cases inR <;> simp [toneRegionsGo, segRun]
  | cons w ws ih =>
    intro inR rs lastT
    cases inR <;> by_cases hw : thr ≤ w.rmsDb <;>
      simp [toneRegionsGo, segRun, segStep, hw, ih]

/-- C4 (confirmed): the region segmenter, started OUTSIDE and scanning the
windows in order, opens a region exactly on an inactive-to-active transition
of the energy gate, recording the region start as that window's timestamp;
closes the region at the current window's timestamp exactly on an
active-to-inactive transition; and, if the stream ends while inside a region,
closes it at the last window's timestamp: the code's scan equals the
specification's two-state machine. -/
theorem tone_regions_state_machine (thr : ℚ) (ws : List AWindow) :
    toneRegionsCode thr ws = toneRegionsSpec thr ws := by
  unfold toneRegionsCode toneRegionsSpec
  simpa using toneRegionsGo_eq_segRun thr ws false 0 0

/-- The debounce loop agrees with the specification's assembler from any
common state (same last_digit and digit_start). -/
theorem debounceGo_eq_spec (rate : ℚ) (dataLen : ℤ) :
    ∀ (stream : List (ℤ × Option Char)) (last : Option Char) (ds : ℤ),
      debounceGo rate dataLen stream last ds =
        specDebounceGo rate dataLen stream last ds := by
  intro stream
  induction stream with
  | nil => intro last ds; rfl
  | cons p rest ih =>
    intro last ds
    obtain ⟨i, d⟩ := p
    cases d with
    | none =>
      cases last with
      | none => simp [debounceGo, specDebounceGo, ih]
      | some ld => simp [debounceGo, specDebounceGo, ih]
    | some dg =>
      cases last with
      | none => simp [debounceGo, specDebounceGo, ih]
      | some ld =>
        by_cases h : dg = ld
        · subst h; simp [debounceGo, specDebounceGo, ih]
        · simp [debounceGo, specDebounceGo, h, ih]

/-- A run of windows all decoding the same digit never emits inside the run:
the single event is closed at the end of the stream. -/
theorem debounceGo_const (rate : ℚ) (dataLen : ℤ) (d : Char) :
    ∀ (offs : List ℤ) (ds : ℤ),
      debounceGo rate dataLen (offs.map (fun i => (i, some d))) (some d) ds =
        [(d, (ds : ℚ) / rate, ((dataLen - ds : ℤ) : ℚ) / rate * 1000)] := by
  intro offs
  induction offs with
  | nil => intro ds; rfl
  | cons i rest ih => intro ds; simp [debounceGo, ih]

/-- C8 (confirmed): the sequence assembler's single forward pass tracking
last_digit and digit_start emits (last_digit, digit_start/rate,
(now - digit_start)/rate * 1000) exactly when the newly decoded digit differs
from last_digit and an event is open, opens a new event exactly when the new
digit is non-none and differs from last_digit, closes any still-open event at
stream end using the buffer's end, and consecutive windows decoding the same
digit produce exactly one event. -/
theorem debounce_assembler_spec :
    (∀ (rate : ℚ) (dataLen : ℤ) (stream : List (ℤ × Option Char)),
        digitEvents rate dataLen stream = specDebounceGo rate dataLen stream none 0) ∧
    (∀ (rate : ℚ) (dataLen : ℤ) (d : Char) (offs : List ℤ),
        (digitEvents rate dataLen (offs.map (fun i => (i, some d)))).map
            (fun e => e.1) =
          if offs.isEmpty then [] else [d]) := by
  constructor
  · intro rate dataLen stream
    exact debounceGo_eq_spec rate dataLen stream none 0
  · intro rate dataLen d offs
    cases offs with
    | nil => rfl
    | cons i rest => simp [digitEvents, debounceGo, debounceGo_const]

/-- The fold underlying pyMaxBy returns an element of the scanned list that
carries a maximal key. -/
theorem foldl_pick_spec {β γ : Type} [LinearOrder γ] (key : β → γ) :
    ∀ (bs : List β) (b : β),
      (List.foldl (fun best x => if key best < key x then x else best) b bs ∈ b :: bs) ∧
      ∀ x ∈ b :: bs,
        key x ≤ key (List.foldl (fun best x => if key best < key x then x else best) b bs) := by
  intro bs
  induction bs with
  | nil =>
    intro b
    refine ⟨by simp, ?_⟩
    intro x hx
    simp only [List.mem_singleton] at hx
    subst hx
    exact le_refl _
  | cons c cs ih =>
    intro b
    simp only [List.foldl_cons]
    obtain ⟨hmem, hle⟩ := ih (if key b < key c then c else b)
    have hb_le : key b ≤ key (if key b < key c then c else b) := by
      by_cases hbc : key b < key c
      · rw [if_pos hbc]; exact le_of_lt hbc
      · rw [if_neg hbc]
    have hc_le : key c ≤ key (if key b < key c then c else b) := by
      by_cases hbc : key b < key c
      · rw [if_pos hbc]
      · rw [if_neg hbc]; exact le_of_not_lt hbc
    constructor
    · rcases List.mem_cons.1 hmem with heq | hmem2
      · rw [heq]
        by_cases hbc : key b < key c
        · rw [if_pos hbc]
          exact List.mem_cons_of_mem _ (List.mem_cons_self _ _)
        · rw [if_neg hbc]
          exact List.mem_cons_self _ _
      · exact List.mem_cons_of_mem _ (List.mem_cons_of_mem _ hmem2)
    · intro x hx
      rcases List.mem_cons.1 hx with heq | hx2
      · subst heq
        exact le_trans hb_le (hle _ (List.mem_cons_self _ _))
      · rcases List.mem_cons.1 hx2 with heq | hx3
        · subst heq
          exact le_trans hc_le (hle _ (List.mem_cons_self _ _))
        · exact hle _ (List.mem_cons_of_mem _ hx3)

/-- pyMaxBy returns an element of the list whose key is maximal (Python max). -/
theorem pyMaxBy_mem_le {β γ : Type} [LinearOrder γ] (key : β → γ) (l : List β) (b : β)
    (h : pyMaxBy key l = some b) : b ∈ l ∧ ∀ x ∈ l, key x ≤ key b := by
  cases l with
  | nil => simp [pyMaxBy] at h
  | cons a as =>
    simp only [pyMaxBy, Option.some.injEq] at h
    subst h
    exact foldl_pick_spec key as a

/-- Elements of dedupFirst come from the scanned list. -/
theorem dedupFirst_subset {β : Type} [DecidableEq β] :
    ∀ (seen l : List β) (x : β), x ∈ dedupFirst seen l → x ∈ l := by
  intro seen l
  induction l generalizing seen with
  | nil => intro x hx; simp [dedupFirst] at hx
  | cons a as ih =>
    intro x hx
    simp only [dedupFirst] at hx
    by_cases ha : a ∈ seen
    · rw [if_pos ha] at hx
      exact List.mem_cons_of_mem _ (ih seen x hx)
    · rw [if_neg ha] at hx
      rcases List.mem_cons.1 hx with rfl | hx2
      · exact List.mem_cons_self _ _
      · exact List.mem_cons_of_mem _ (ih _ x hx2)

/-- Every scanned element is recorded in seen or appears in dedupFirst. -/
theorem mem_dedupFirst {β : Type} [DecidableEq β] :
    ∀ (seen l : List β) (x : β), x ∈ l → x ∈ seen ∨ x ∈ dedupFirst seen l := by
  intro seen l
  induction l generalizing seen with
  | nil => intro x hx; simp at hx
  | cons a as ih =>
    intro x hx
    simp only [dedupFirst]
    by_cases ha : a ∈ seen
    · rw [if_pos ha]
      rcases List.mem_cons.1 hx with rfl | hx2
      · exact Or.inl ha
      · exact ih seen x hx2
    · rw [if_neg ha]
      rcases List.mem_cons.1 hx with rfl | hx2
      · exact Or.inr (List.mem_cons_self _ _)
      · rcases ih (a :: seen) x hx2 with hseen | hdedup
        · rcases List.mem_cons.1 hseen with rfl | hs
          · exact Or.inr (List.mem_cons_self _ _)
          · exact Or.inl hs
        · exact Or.inr (List.mem_cons_of_mem _ hdedup)

/-- mostCommon (Counter.most_common(1)[0]) returns an element of the list
together with its count, and that count is maximal. -/
theorem mostCommon_mem_count {β : Type} [DecidableEq β] (l : List β) (p : β × ℕ)
    (h : mostCommon l = some p) :
    p.1 ∈ l ∧ p.2 = l.count p.1 ∧ ∀ x ∈ l, l.count x ≤ l.count p.1 := by
  unfold mostCommon at h
  cases hm : pyMaxBy (fun x => l.count x) (dedupFirst [] l) with
  | none => rw [hm] at h; simp at h
  | some b =>
    rw [hm] at h
    have hp : p = (b, l.count b) := (Option.some.inj h).symm
    subst hp
    obtain ⟨hb, hcnt⟩ := pyMaxBy_mem_le _ _ _ hm
    refine ⟨dedupFirst_subset _ _ _ hb, rfl, ?_⟩
    intro x hx
    rcases mem_dedupFirst [] l x hx with hfalse | hmem
    · simp at hfalse
    · exact hcnt x hmem

/-- C3 (counterexample): in a region whose three active member windows have
best pairs (697,1209), (770,1336), (697,1336) — per-window decoded digits
'1', '5', '2', all with count one, earliest '1' — the code's consensus digit
is '2' (low band majority 697, high band majority 1336), not the majority
vote '1' of the per-window decoded digit required by the claim. -/
theorem region_consensus_counterexample :
    (regionAnalysis (-20) ws3).map RegionInfo.gDigit = ['2'] ∧
    consensusDigitByVote (activeMembers (-20) ws3 (1, 3)) = some '1' ∧
    ('2' : Char) ≠ '1' := by
  refine ⟨by decide, by decide, by decide⟩

/-- C3 (amended): for every closed tone region, the representative window is
a member window (time within the region bounds) of maximal RMS energy, and
the consensus digit is obtained by voting the per-window best low frequency
and best high frequency separately over the active member windows (ties
broken by the earliest-occurring value) and looking the winning pair up in
the 16-entry map; the consensus is a function of the member windows only,
hence independent of the representative window's own decode. -/
theorem region_consensus_amended (thr : ℚ) (ws : List AWindow)
    (rep : AWindow) (hrep : rep ∈ representativeWindows thr ws)
    (r : RegionInfo) (hr : r ∈ regionAnalysis thr ws) :
    (∃ se ∈ toneRegionsCode thr ws,
        rep ∈ regionMembers ws se ∧ ∀ w ∈ regionMembers ws se, w.rms ≤ rep.rms) ∧
    some r.gDigit = consensusByBandVote (activeMembers thr ws (r.rstart, r.rend)) := by
  constructor
  · unfold representativeWindows at hrep
    obtain ⟨se, hse, hmax⟩ := List.mem_filterMap.1 hrep
    obtain ⟨hmem, hle⟩ := pyMaxBy_mem_le _ _ _ hmax
    exact ⟨se, hse, hmem, hle⟩
  · unfold regionAnalysis at hr
    obtain ⟨se, hse, hmk⟩ := List.mem_filterMap.1 hr
    cases hlc : mostCommon ((activeMembers thr ws se).map bestLowFreq) with
    | none => rw [hlc] at hmk; simp at hmk
    | some lc =>
      cases hhc : mostCommon ((activeMembers thr ws se).map bestHighFreq) with
      | none => rw [hlc, hhc] at hmk; simp at hmk
      | some hc =>
        rw [hlc, hhc] at hmk
        simp only [Option.some.injEq] at hmk
        subst hmk
        unfold consensusByBandVote
        rw [hlc, hhc]

/-- Witness for C3's amended theorem on the three-window region ws3. -/
theorem region_consensus_amended_witness :
    (∃ se ∈ toneRegionsCode (-20) ws3,
        w3c ∈ regionMembers ws3 se ∧ ∀ w ∈ regionMembers ws3 se, w.rms ≤ w3c.rms) ∧
    some r3.gDigit = consensusByBandVote (activeMembers (-20) ws3 (r3.rstart, r3.rend)) :=
  region_consensus_amended (-20) ws3 w3c (by decide) r3 (by decide)

/-- C10 (confirmed): every tone_region_analysis entry (a region with at least
one active member window) carries a consensus digit drawn from the 16-entry
map — the '?' fallback of the lookup is unreachable, because the voted low
and high frequencies always come from the fixed four-element tables — and
gated_detections emits every region's digit unconditionally: no magnitude
threshold or twist check can suppress it. -/
theorem region_digit_total (thr : ℚ) (ws : List AWindow) (r : RegionInfo)
    (hr : r ∈ regionAnalysis thr ws) :
    r.gDigit ≠ '?' ∧
      (gatedDetections (regionAnalysis thr ws)).map GatedDetection.digit =
        (regionAnalysis thr ws).map RegionInfo.gDigit := by
  constructor
  · unfold regionAnalysis at hr
    obtain ⟨se, hse, hmk⟩ := List.mem_filterMap.1 hr
    cases hlc : mostCommon ((activeMembers thr ws se).map bestLowFreq) with
    | none => rw [hlc] at hmk; simp at hmk
    | some lc =>
      cases hhc : mostCommon ((activeMembers thr ws se).map bestHighFreq) with
      | none => rw [hlc, hhc] at hmk; simp at hmk
      | some hc =>
        rw [hlc, hhc] at hmk
        simp only [Option.some.injEq] at hmk
        subst hmk
        obtain ⟨hlmem, -, -⟩ := mostCommon_mem_count _ _ hlc
        obtain ⟨hhmem, -, -⟩ := mostCommon_mem_count _ _ hhc
        obtain ⟨wl, -, hwl⟩ := List.mem_map.1 hlmem
        obtain ⟨wh, -, hwh⟩ := List.mem_map.1 hhmem
        show dtmfGetD (lc.1, hc.1) '?' ≠ '?'
        rw [← hwl, ← hwh]
        exact dtmf_pair_ne_undetected _ _
  · simp [gatedDetections, Function.comp]

/-- Witness for C10 on the three-window region ws3. -/
theorem region_digit_total_witness :
    r3.gDigit ≠ '?' ∧
      (gatedDetections (regionAnalysis (-20) ws3)).map GatedDetection.digit =
        (regionAnalysis (-20) ws3).map RegionInfo.gDigit :=
  region_digit_total (-20) ws3 r3 (by decide)

/-- The source's bin index int(0.5 + n·f/Fs) equals the specification's
round(n·f/Fs): rounding half up coincides with floor after adding one half. -/
theorem kCode_eq_kRound (n f fs : ℕ) : kCode n f fs = kRound n f fs := by
  unfold kCode kRound
  rw [round_eq, Int.floor_toNat, add_comm]

/-- C6 (confirmed): the Goertzel filter computes exactly the specified
algorithm — k = round(N·f/Fs) (the source's int(0.5 + N·f/Fs) agrees on the
non-negative arguments), omega = 2·pi·k/N, coeff = 2·cos(omega), the
zero-initialized recursion q0 = coeff·q1 - q2 + sample; q2 = q1; q1 = q0 once
per sample in order, and the magnitude sqrt(real^2 + imag^2) with
real = q1 - q2·cos(omega), imag = q2·sin(omega) — as a pure deterministic
function of its inputs. -/
theorem goertzel_matches_spec (samples : List ℝ) (f fs : ℕ)
    (h1 : 1 ≤ samples.length) (h2 : 0 < f) (h3 : 2 * f < fs) :
    goertzel samples f fs = goertzelSpecAlg samples f fs := by
  unfold goertzel goertzelSpecAlg
  rw [kCode_eq_kRound]

/-- Witness for C6 on the one-sample window [1] at 697 Hz, 11025 Hz. -/
theorem goertzel_matches_spec_witness :
    (1 ≤ ([(1 : ℝ)] : List ℝ).length ∧ 0 < 697 ∧ 2 * 697 < 11025) ∧
      goertzel [(1 : ℝ)] 697 11025 = goertzelSpecAlg [(1 : ℝ)] 697 11025 :=
  ⟨⟨by simp, by norm_num, by norm_num⟩,
    goertzel_matches_spec [(1 : ℝ)] 697 11025 (by simp) (by norm_num) (by norm_num)⟩

/-- Doubling every sample doubles the recursion state, componentwise. -/
theorem gStep_foldl_double (c : ℝ) :
    ∀ (l : List ℝ) (a b : ℝ),
      (l.map (fun s => 2 * s)).foldl (gStep c) (2 * a, 2 * b) =
        (2 * (l.foldl (gStep c) (a, b)).1, 2 * (l.foldl (gStep c) (a, b)).2) := by
  intro l
  induction l with
  | nil => intro a b; rfl
  | cons s rest ih =>
    intro a b
    simp only [List.map_cons, List.foldl_cons]
    have hstep2 : gStep c (a, b) s = (c * a - b + s, a) := rfl
    have hstep : gStep c (2 * a, 2 * b) (2 * s) = (2 * (c * a - b + s), 2 * a) := by
      simp only [gStep, Prod.mk.injEq]
      refine ⟨by ring, trivial⟩
    rw [hstep2, hstep, ih]

/-- Scaling both components of the magnitude computation by two doubles the
square root of the sum of squares. -/
theorem sqrt_quad_double (q1 q2 c s : ℝ) :
    Real.sqrt ((2 * q1 - 2 * q2 * c) * (2 * q1 - 2 * q2 * c) +
        (2 * q2 * s) * (2 * q2 * s)) =
      2 * Real.sqrt ((q1 - q2 * c) * (q1 - q2 * c) + (q2 * s) * (q2 * s)) := by
  have h4 : Real.sqrt 4 = 2 := by
    rw [show (4 : ℝ) = 2 ^ 2 by norm_num]
    exact Real.sqrt_sq (by norm_num)
  rw [show (2 * q1 - 2 * q2 * c) * (2 * q1 - 2 * q2 * c) +
      (2 * q2 * s) * (2 * q2 * s) =
      4 * ((q1 - q2 * c) * (q1 - q2 * c) + (q2 * s) * (q2 * s)) from by ring]
  rw [Real.sqrt_mul (by norm_num : (0 : ℝ) ≤ 4), h4]

/-- The Goertzel magnitude is a square root, hence non-negative. -/
theorem goertzelCore_nonneg (k n : ℕ) (samples : List ℝ) :
    0 ≤ goertzelCore k n samples := by
  simp only [goertzelCore]
  exact Real.sqrt_nonneg _

/-- Doubling every sample doubles the Goertzel magnitude at fixed k and n. -/
theorem goertzelCore_double (k n : ℕ) (samples : List ℝ) :
    goertzelCore k n (samples.map (fun s => 2 * s)) = 2 * goertzelCore k n samples := by
  simp only [goertzelCore]
  have h00 : ((0 : ℝ), (0 : ℝ)) = (2 * (0 : ℝ), 2 * (0 : ℝ)) := by norm_num
  conv_lhs => rw [h00, gStep_foldl_double]
  exact sqrt_quad_double _ _ _ _

/-- C7 (confirmed): for every window and target frequency the Goertzel
magnitude is non-negative, and it is linear in signal amplitude: scaling
every sample by 2 yields exactly twice the magnitude. -/
theorem goertzel_nonneg_and_linear :
    (∀ (samples : List ℝ) (f fs : ℕ), 0 ≤ goertzel samples f fs) ∧
    (∀ (samples : List ℝ) (f fs : ℕ),
        goertzel (samples.map (fun s => 2 * s)) f fs = 2 * goertzel samples f fs) := by
  constructor
  · intro samples f fs
    exact goertzelCore_nonneg _ _ _
  · intro samples f fs
    unfold goertzel
    rw [List.length_map]
    exact goertzelCore_double _ _ _

end BowiePhone
